import Mathlib

/-!
Shallow embedding of the Ultimate Tic-Tac-Toe engine core
(`src/utils/alpha-beta.ts`).

JavaScript `bigint` words are modelled as `Nat` (all words manipulated by
the engine are built from `0` by `|`, `<<`, `&`, `>>`, all of which stay
non-negative); the `number`-typed evaluation scores are modelled as `Int`.
Names follow the source.
-/

namespace UTTT

/-- A position: two 63-bit cell words and the shared word
(zones 7 and 8 for both players, the meta board, and the next-zone field),
exactly as in the source's `Board` type. -/
structure Board where
  us : Nat
  them : Nat
  share : Nat
  deriving DecidableEq, Repr

def OUTCOME_WIN : Int := 1000000
def OUTCOME_DRAW : Int := 0
def OUTCOME_LOSS : Int := -1000000

def BIG_TWO_COUNT : Int := 90
def BIG_ONE_COUNT : Int := 20
def SMALL_TWO_COUNT : Int := 8
def SMALL_ONE_COUNT : Int := 1

def CENTRE : Int := 9
def CORNER : Int := 7
def EDGE : Int := 5
def SQ_BIG : Int := 25

def LINE : Nat := 0b111
def CHUNK : Nat := 0b111111111
def DBLCHUNK : Nat := (CHUNK <<< 9) ||| CHUNK
def EXCLZONE : Nat := (0b111111 <<< 58) ||| ((1 <<< 54) - 1)
def CORNER_MASK : Nat := 0b101000101
def EDGE_MASK : Nat := 0b010101010
def CENTRE_MASK : Nat := 0b000010000

def ZONE_ANY : Nat := 9
def NULL_MOVE : Nat := 81

/-- `newBoard()` from the source: empty cell words, next zone = ANY. -/
def newBoard : Board := ⟨0, 0, ZONE_ANY <<< 54⟩

def LINE_MAGICS : List Nat := [
  0b000100000000100000000100,
  0b000000000000010000100000,
  0b100000000000001100000000,
  0b000000000100000000000010,
  0b010010000010000000010000,
  0b000000000001000010000000,
  0b001000100000000000000001,
  0b000000010000000000001000,
  0b000001001000000001000000]

def PRESENCE_MAGICS : List Nat := [
  0b10110110,
  0b11101110,
  0b01011110,
  0b11110101,
  0b00101101,
  0b11011101,
  0b01110011,
  0b11101011,
  0b10011011]

/-- `lines(grid)` from the source: sum over cell indices `i` of
`LINE_MAGICS[i] * ((grid >> i) & 1)`. -/
def lines (grid : Nat) : Nat :=
  (LINE_MAGICS.enum.map (fun p => p.2 * ((grid >>> p.1) &&& 1))).foldl (· + ·) 0

/-- `linePresence(grid)` from the source: AND-fold over the presence magics,
each ORed with `0xff` when the corresponding cell bit is set; true iff the
fold is non-zero. -/
def linePresence (grid : Nat) : Bool :=
  ((PRESENCE_MAGICS.enum.map
      (fun p => p.2 ||| (((grid >>> p.1) &&& 1) * 0xff))).foldl (· &&& ·) 0xff) != 0

/-- The source's `popCount` lookup table, as a function: the number of set
bits among bits 0..8 of `i`. -/
def popCount (i : Nat) : Nat :=
  (List.range 9).foldl (fun acc j => acc + ((i >>> j) &&& 1)) 0

/-- The per-line loop of `init()`: walks the eight 3-bit slots (shift
amounts 0,3,...,21) of `lines(us)` / `lines(them)`, with the source's
`continue`/`break` structure, accumulating the large and small line scores
and reporting whether a side completed a line. -/
def initLineScan (usLines themLines : Nat) :
    List Nat → Int → Int → Bool × Bool × Int × Int
  | [], eL, eS => (false, false, eL, eS)
  | i :: rest, eL, eS =>
    let usCount := popCount ((usLines >>> i) &&& LINE)
    let themCount := popCount ((themLines >>> i) &&& LINE)
    if usCount ≠ 0 ∧ themCount ≠ 0 then
      initLineScan usLines themLines rest eL eS
    else if usCount = 3 then
      (true, false, eL, eS)
    else if themCount = 3 then
      (false, true, eL, eS)
    else
      initLineScan usLines themLines rest
        (eL + (if usCount = 2 then BIG_TWO_COUNT else if usCount = 1 then BIG_ONE_COUNT else 0)
            - (if themCount = 2 then BIG_TWO_COUNT else if themCount = 1 then BIG_ONE_COUNT else 0))
        (eS + (if usCount = 2 then SMALL_TWO_COUNT else if usCount = 1 then SMALL_ONE_COUNT else 0)
            - (if themCount = 2 then SMALL_TWO_COUNT else if themCount = 1 then SMALL_ONE_COUNT else 0))

/-- The body of `init()`'s double loop for one pair `(us, them)`:
the value stored at index `(them << 9) | us` of the two evaluation tables.
(The source pre-fills both arrays with `0` and writes each index exactly
once, so the per-pair body determines the tables.) -/
def evalPair (us them : Nat) : Int × Int :=
  let scan := initLineScan (lines us) (lines them) [0, 3, 6, 9, 12, 15, 18, 21] 0 0
  let usWon := scan.1
  let themWon := scan.2.1
  let evaluationLarge := scan.2.2.1
  let evaluationSmall := scan.2.2.2
  let evaluationPos : Int :=
    CORNER * ((popCount (us &&& CORNER_MASK) : Int) - (popCount (them &&& CORNER_MASK) : Int))
    + EDGE * ((popCount (us &&& EDGE_MASK) : Int) - (popCount (them &&& EDGE_MASK) : Int))
    + CENTRE * ((popCount (us &&& CENTRE_MASK) : Int) - (popCount (them &&& CENTRE_MASK) : Int))
  if usWon then (OUTCOME_WIN, 0)
  else if themWon then (OUTCOME_LOSS, 0)
  else if popCount (us ||| them) = 9 then (OUTCOME_DRAW, 0)
  else (evaluationLarge + evaluationPos * SQ_BIG, evaluationSmall + evaluationPos)

/-- `EVAL_TABLE_LARGE[idx]` for `idx < 2^18`: the source's array is indexed
by `(them << 9) | us`, so `us = idx & 511` and `them = idx >> 9`. -/
def EVAL_TABLE_LARGE (idx : Nat) : Int := (evalPair (idx &&& 511) (idx >>> 9)).1

/-- `EVAL_TABLE_SMALL[idx]` for `idx < 2^18`. -/
def EVAL_TABLE_SMALL (idx : Nat) : Int := (evalPair (idx &&& 511) (idx >>> 9)).2

/-- `generateMoves(board)` from the source. -/
def generateMoves (board : Board) : List Nat :=
  if linePresence (board.share >>> 36) || linePresence (board.share >>> 45) then []
  else
    let zone := (board.share >>> 54) &&& 0b1111
    if zone = ZONE_ANY then
      let nwToSw := board.us ||| board.them
      let sToSe := (board.share >>> 18) ||| board.share
      let large := (board.share >>> 36) ||| (board.share >>> 45)
      ((List.range 63).filter
        (fun i => ((nwToSw >>> i) &&& 1 == 0) && ((large >>> (i / 9)) &&& 1 == 0)))
      ++ (((List.range 18).map (· + 63)).filter
        (fun i => ((sToSe >>> (i - 63)) &&& 1 == 0) && ((large >>> (i / 9)) &&& 1 == 0)))
    else if zone = 7 ∨ zone = 8 then
      let sToSe := (board.share >>> 18) ||| board.share
      ((List.range 9).map (fun i => i + 9 * zone)).filter
        (fun i => (sToSe >>> (i - 63)) &&& 1 == 0)
    else
      let nwToSw := board.us ||| board.them
      ((List.range 9).map (fun i => i + 9 * zone)).filter
        (fun i => (nwToSw >>> i) &&& 1 == 0)

/-- The first phase of `playMove(board, move, side)`: place the mark into
the correct word and report the `lineOccupancy` flag computed from the
moving player's updated zone pattern. -/
def playMoveCell (board : Board) (move : Nat) (side : Bool) : Board × Bool :=
  if move > 62 then
    let share := board.share ||| (1 <<< (move - 63 + cond side 0 18))
    (⟨board.us, board.them, share⟩,
      linePresence (share >>> (9 * (move / 9) - 63 + cond side 0 18)))
  else if side then
    let us := board.us ||| (1 <<< move)
    (⟨us, board.them, board.share⟩, linePresence (us >>> (9 * (move / 9))))
  else
    let them := board.them ||| (1 <<< move)
    (⟨board.us, them, board.share⟩, linePresence (them >>> (9 * (move / 9))))

/-- `playMove(board, move, side)` from the source: place the mark, set the
meta-won bit when the zone was completed, and compute the next-zone field. -/
def playMove (board : Board) (move : Nat) (side : Bool) : Board :=
  let step := playMoveCell board move side
  let us := step.1.us
  let them := step.1.them
  let share0 := step.1.share
  let lineOccupancy := step.2
  let share1 :=
    if lineOccupancy then share0 ||| (1 <<< (36 + cond side 0 9 + move / 9)) else share0
  let nextChunk :=
    if move % 9 > 6 then
      ((share1 ||| (share1 >>> 18)) >>> (9 * (move % 9 - 7))) &&& CHUNK
    else
      ((us ||| them) >>> (9 * (move % 9))) &&& CHUNK
  let zone :=
    if nextChunk = CHUNK ∨ ((share1 ||| (share1 >>> 9)) >>> (36 + move % 9)) &&& 1 = 1 then
      ZONE_ANY
    else move % 9
  ⟨us, them, (share1 &&& EXCLZONE) ||| (zone <<< 54)⟩

/-- `evaluate(board, side)` from the source. -/
def evaluate (board : Board) (side : Bool) : Int :=
  let decisiveEval := EVAL_TABLE_LARGE ((board.share >>> 36) &&& DBLCHUNK)
  if decisiveEval = OUTCOME_WIN ∨ decisiveEval = OUTCOME_LOSS then
    cond side decisiveEval (-decisiveEval)
  else
    let large := ((board.share >>> 36) ||| (board.share >>> 45)) &&& CHUNK
    if large = CHUNK then OUTCOME_DRAW
    else
      let ev0 := (List.range 7).foldl (fun acc i =>
        let usData := (board.us >>> (9 * i)) &&& CHUNK
        let themData := (board.them >>> (9 * i)) &&& CHUNK
        acc + (if (large >>> i) &&& 1 = 1 ∨ (usData ||| themData) = CHUNK then 0
               else EVAL_TABLE_SMALL ((themData <<< 9) ||| usData))) decisiveEval
      let ev1 := [7, 8].foldl (fun acc i =>
        let usData := (board.share >>> (9 * i - 63)) &&& CHUNK
        let themData := (board.share >>> (9 * i - 45)) &&& CHUNK
        acc + (if (large >>> i) &&& 1 = 1 ∨ (usData ||| themData) = CHUNK then 0
               else EVAL_TABLE_SMALL ((themData <<< 9) ||| usData))) ev0
      cond side ev1 (-ev1)

/-- The score/PV pair returned by the search. -/
structure EvalAndPV where
  evaluation : Int
  pv : List Nat
  deriving DecidableEq, Repr

/-- The `for (const move of moveList)` loop of `alphaBeta`, with the current
`alpha` and `pv` threaded through; `rec` performs the recursive call at
depth − 1 given the child board, the flipped side, and the negated window. -/
def abLoop (rec : Board → Bool → Int → Int → EvalAndPV) (board : Board) (side : Bool)
    (depth maxDepth : Nat) (beta : Int) :
    List Nat → Int → List Nat → EvalAndPV
  | [], alpha, pv => ⟨alpha, pv⟩
  | move :: rest, alpha, pv =>
    let r := rec (playMove board move side) (!side) (-beta) (-alpha)
    let evaluation := -r.evaluation
    let line := r.pv.set (maxDepth - depth) move
    if evaluation ≥ beta then ⟨beta, line⟩
    else if evaluation > alpha then
      abLoop rec board side depth maxDepth beta rest evaluation line
    else
      abLoop rec board side depth maxDepth beta rest alpha pv

/-- `alphaBeta(board, side, depth, alpha, beta, maxDepth)` from the source.
The recursion is structural on `depth`. -/
def alphaBeta (board : Board) (side : Bool) :
    Nat → Int → Int → Nat → EvalAndPV
  | 0, _, _, maxDepth =>
    let evaluation := evaluate board side
    let adjusted :=
      if evaluation = OUTCOME_WIN then evaluation - (maxDepth : Int) + 0
      else if evaluation = OUTCOME_LOSS then evaluation + (maxDepth : Int) - 0
      else evaluation
    ⟨adjusted, List.replicate maxDepth NULL_MOVE⟩
  | d + 1, alpha, beta, maxDepth =>
    let moveList := generateMoves board
    if moveList.isEmpty then
      let evaluation :=
        EVAL_TABLE_LARGE ((board.share >>> 36) &&& DBLCHUNK) * (cond side 1 (-1))
      let adjusted :=
        if evaluation = OUTCOME_WIN then evaluation - (maxDepth : Int) + ((d + 1 : Nat) : Int)
        else if evaluation = OUTCOME_LOSS then evaluation + (maxDepth : Int) - ((d + 1 : Nat) : Int)
        else OUTCOME_DRAW
      ⟨adjusted, List.replicate maxDepth NULL_MOVE⟩
    else
      abLoop (fun b s a bβ => alphaBeta b s d a bβ maxDepth) board side (d + 1) maxDepth beta
        moveList alpha (List.replicate maxDepth NULL_MOVE)

/-- `alphaBetaRootCall(board, side, depth)` from the source. -/
def alphaBetaRootCall (board : Board) (side : Bool) (depth : Nat) : EvalAndPV :=
  alphaBeta board side depth OUTCOME_LOSS OUTCOME_WIN depth

/-! ### Spec-side notions

The eight winning lines of a 3×3 grid (cells numbered 0..8 row-major) as
9-bit masks, listed in the slot order realised by `LINE_MAGICS`:
columns 0..2, rows 0..2, main diagonal (cells 0,4,8),
anti-diagonal (cells 2,4,6). -/

def lineMasksList : List Nat :=
  [0b001001001, 0b010010010, 0b100100100,
   0b000000111, 0b000111000, 0b111000000,
   0b100010001, 0b001010100]

def lineMask (k : Fin 8) : Nat := lineMasksList.getD k.val 0

/-- `g` contains at least one completed line of three. -/
def hasLine (g : Nat) : Bool := decide (∃ k : Fin 8, g &&& lineMask k = lineMask k)

/-- The next-zone field of a position: bits 54–57 of `share`. -/
def nextZoneField (b : Board) : Nat := (b.share >>> 54) &&& 0b1111

/-- The 9-bit cell-occupancy pattern of zone `z` (both players combined),
read off the data model: zones 0–6 live in `us`/`them`, zones 7–8 in the
two halves of `share`. -/
def zoneCells (b : Board) (z : Nat) : Nat :=
  if 7 ≤ z then (((b.share >>> 18) ||| b.share) >>> (9 * (z - 7))) &&& CHUNK
  else ((b.us ||| b.them) >>> (9 * z)) &&& CHUNK

/-- Zone `z` is decided: its us-won meta bit (36+z) or them-won meta bit
(45+z) is set in `share`. -/
def zoneDecided (b : Board) (z : Nat) : Prop :=
  (b.share >>> (36 + z)) &&& 1 = 1 ∨ (b.share >>> (45 + z)) &&& 1 = 1

/-- Zone `z` is full: all nine of its cells are occupied. -/
def zoneFull (b : Board) (z : Nat) : Prop := zoneCells b z = CHUNK

/-- The cell addressed by move `m` is empty in both players' words. -/
def cellEmpty (b : Board) (m : Nat) : Prop :=
  if 63 ≤ m then (((b.share >>> 18) ||| b.share) >>> (m - 63)) &&& 1 = 0
  else ((b.us ||| b.them) >>> m) &&& 1 = 0

/-- Positions reachable from `newBoard` by repeatedly playing a generated
move, sides alternating from the initial `true` (as the application does). -/
inductive Reachable : Board → Bool → Prop where
  | base : Reachable newBoard true
  | step {b : Board} {s : Bool} {m : Nat} :
      Reachable b s → m ∈ generateMoves b → Reachable (playMove b m s) (!s)

/-! ### Helper lemmas on the bit utilities -/

/-- Each 3-bit slot of `lines g` is the occupancy mask of the
corresponding line: its popcount is the number of marks on the line, and
it is 7 exactly when the line is complete. -/
theorem lines_slot_spec : ∀ g : Nat, g < 512 → ∀ k : Fin 8,
    popCount ((lines g >>> (3 * k.val)) &&& 7) = popCount (g &&& lineMask k) ∧
    (((lines g >>> (3 * k.val)) &&& 7 = 7) ↔ g &&& lineMask k = lineMask k) := by
  set_option maxRecDepth 4096 in decide

theorem popCount_eq_three_iff : ∀ s, s < 8 → (popCount s = 3 ↔ s = 7) := by decide

theorem hasLine_iff (g : Nat) :
    hasLine g = true ↔ ∃ k : Fin 8, g &&& lineMask k = lineMask k := by
  simp [hasLine]

theorem slots_mem : ∀ i ∈ [0, 3, 6, 9, 12, 15, 18, 21], ∃ k : Fin 8, i = 3 * k.val := by
  decide

/-- A slot's mark count is 3 exactly when the corresponding line is
completed. -/
theorem slot_count_three (g : Nat) (hg : g < 512) (k : Fin 8) :
    (popCount ((lines g >>> (3 * k.val)) &&& LINE) = 3) ↔
      g &&& lineMask k = lineMask k := by
  have h := lines_slot_spec g hg k
  have hLINE : LINE = 7 := rfl
  rw [hLINE]
  constructor
  · intro h3
    have hlt : (lines g >>> (3 * k.val)) &&& 7 < 8 := Nat.lt_succ_of_le Nat.and_le_right
    exact h.2.mp ((popCount_eq_three_iff _ hlt).mp h3)
  · intro hm
    rw [h.2.mpr hm]
    decide

/-- A side with no marks on a line has slot count 0 there. -/
theorem slot_count_zero (g : Nat) (hg : g < 512) (k : Fin 8)
    (h0 : g &&& lineMask k = 0) :
    popCount ((lines g >>> (3 * k.val)) &&& LINE) = 0 := by
  have h := (lines_slot_spec g hg k).1
  have hLINE : LINE = 7 := rfl
  rw [hLINE, h, h0]
  decide

/-! ### Helper lemmas on the `init` line scan -/

theorem initLineScan_usWon (L M : Nat) :
    ∀ (l : List Nat) (eL eS : Int),
      (∀ i ∈ l, popCount ((M >>> i) &&& LINE) ≠ 3) →
      (∃ i ∈ l, popCount ((L >>> i) &&& LINE) = 3 ∧ popCount ((M >>> i) &&& LINE) = 0) →
      (initLineScan L M l eL eS).1 = true ∧ (initLineScan L M l eL eS).2.1 = false := by
  intro l
  induction l with
  | nil => intro eL eS _ hex; simp at hex
  | cons i rest ih =>
    intro eL eS hM hex
    simp only [initLineScan]
    by_cases hg : popCount ((L >>> i) &&& LINE) ≠ 0 ∧ popCount ((M >>> i) &&& LINE) ≠ 0
    · rw [if_pos hg]
      refine ih _ _ (fun j hj => hM j (List.mem_cons_of_mem _ hj)) ?_
      rcases hex with ⟨j, hj, hLj, hMj⟩
      rcases List.mem_cons.mp hj with rfl | hj'
      · exact absurd hMj hg.2
      · exact ⟨j, hj', hLj, hMj⟩
    · rw [if_neg hg]
      by_cases hu : popCount ((L >>> i) &&& LINE) = 3
      · rw [if_pos hu]; exact ⟨rfl, rfl⟩
      · rw [if_neg hu, if_neg (hM i (List.mem_cons_self i rest))]
        refine ih _ _ (fun j hj => hM j (List.mem_cons_of_mem _ hj)) ?_
        rcases hex with ⟨j, hj, hLj, hMj⟩
        rcases List.mem_cons.mp hj with rfl | hj'
        · exact absurd hLj hu
        · exact ⟨j, hj', hLj, hMj⟩

theorem initLineScan_themWon (L M : Nat) :
    ∀ (l : List Nat) (eL eS : Int),
      (∀ i ∈ l, popCount ((L >>> i) &&& LINE) ≠ 3) →
      (∃ i ∈ l, popCount ((M >>> i) &&& LINE) = 3 ∧ popCount ((L >>> i) &&& LINE) = 0) →
      (initLineScan L M l eL eS).1 = false ∧ (initLineScan L M l eL eS).2.1 = true := by
  intro l
  induction l with
  | nil => intro eL eS _ hex; simp at hex
  | cons i rest ih =>
    intro eL eS hL hex
    simp only [initLineScan]
    by_cases hg : popCount ((L >>> i) &&& LINE) ≠ 0 ∧ popCount ((M >>> i) &&& LINE) ≠ 0
    · rw [if_pos hg]
      refine ih _ _ (fun j hj => hL j (List.mem_cons_of_mem _ hj)) ?_
      rcases hex with ⟨j, hj, hMj, hLj⟩
      rcases List.mem_cons.mp hj with rfl | hj'
      · exact absurd hLj hg.1
      · exact ⟨j, hj', hMj, hLj⟩
    · rw [if_neg hg, if_neg (hL i (List.mem_cons_self i rest))]
      by_cases ht : popCount ((M >>> i) &&& LINE) = 3
      · rw [if_pos ht]; exact ⟨rfl, rfl⟩
      · rw [if_neg ht]
        refine ih _ _ (fun j hj => hL j (List.mem_cons_of_mem _ hj)) ?_
        rcases hex with ⟨j, hj, hMj, hLj⟩
        rcases List.mem_cons.mp hj with rfl | hj'
        · exact absurd hMj ht
        · exact ⟨j, hj', hMj, hLj⟩

theorem initLineScan_noWin (L M : Nat) :
    ∀ (l : List Nat) (eL eS : Int),
      (∀ i ∈ l, popCount ((L >>> i) &&& LINE) ≠ 3 ∧ popCount ((M >>> i) &&& LINE) ≠ 3) →
      (initLineScan L M l eL eS).1 = false ∧ (initLineScan L M l eL eS).2.1 = false := by
  intro l
  induction l with
  | nil => intro eL eS _; exact ⟨rfl, rfl⟩
  | cons i rest ih =>
    intro eL eS h
    simp only [initLineScan]
    by_cases hg : popCount ((L >>> i) &&& LINE) ≠ 0 ∧ popCount ((M >>> i) &&& LINE) ≠ 0
    · rw [if_pos hg]
      exact ih _ _ (fun j hj => h j (List.mem_cons_of_mem _ hj))
    · rw [if_neg hg, if_neg (h i (List.mem_cons_self i rest)).1,
        if_neg (h i (List.mem_cons_self i rest)).2]
      exact ih _ _ (fun j hj => h j (List.mem_cons_of_mem _ hj))

/-! ### Helper lemmas on bit extraction -/

theorem testBit_511 : ∀ i, Nat.testBit 511 i = decide (i < 9) := by
  intro i
  rw [show (511 : Nat) = 2 ^ 9 - 1 by norm_num, Nat.testBit_two_pow_sub_one]

theorem testBit_of_lt_512 (us i : Nat) (hus : us < 512) (hi : 9 ≤ i) :
    Nat.testBit us i = false := by
  apply Nat.testBit_eq_false_of_lt
  calc us < 512 := hus
    _ = 2 ^ 9 := by norm_num
    _ ≤ 2 ^ i := Nat.pow_le_pow_right (by norm_num) hi

theorem idx_and_511 (them us : Nat) (hus : us < 512) :
    ((them <<< 9) ||| us) &&& 511 = us := by
  apply Nat.eq_of_testBit_eq
  intro i
  rw [Nat.testBit_land, Nat.testBit_lor, Nat.testBit_shiftLeft, testBit_511]
  by_cases hi : i < 9
  · have h9 : ¬(9 ≤ i) := by omega
    simp [hi, h9]
  · have hz : Nat.testBit us i = false := testBit_of_lt_512 us i hus (by omega)
    simp [hi, hz]

theorem idx_shr_9 (them us : Nat) (hus : us < 512) :
    ((them <<< 9) ||| us) >>> 9 = them := by
  apply Nat.eq_of_testBit_eq
  intro i
  rw [Nat.testBit_shiftRight, Nat.testBit_lor, Nat.testBit_shiftLeft]
  have h1 : Nat.testBit us (9 + i) = false := testBit_of_lt_512 us (9 + i) hus (by omega)
  have h2 : 9 ≤ 9 + i := by omega
  simp [h1, h2]

/-! ### Helper lemmas on the `playMove` share word -/

theorem extract_one (x k : Nat) : ((x >>> k) &&& 1 = 1) ↔ Nat.testBit x k := by
  rw [Nat.testBit_to_div_mod, Nat.and_one_is_mod, Nat.shiftRight_eq_div_pow]
  simp

theorem extract_one_zero (x k : Nat) : ((x >>> k) &&& 1 = 0) ↔ Nat.testBit x k = false := by
  have hx := Nat.and_one_is_mod (x >>> k)
  constructor
  · intro h
    rcases Bool.eq_false_or_eq_true (Nat.testBit x k) with hb | hb
    · have := (extract_one x k).mpr hb
      omega
    · exact hb
  · intro h
    rcases Nat.mod_two_eq_zero_or_one (x >>> k) with h0 | h1
    · rw [hx, h0]
    · exact absurd ((extract_one x k).mp (by rw [hx]; exact h1)) (by rw [h]; exact Bool.false_ne_true)

theorem testBit_one_shiftLeft (p i : Nat) : Nat.testBit (1 <<< p) i = decide (p = i) := by
  rw [show (1 : Nat) <<< p = 2 ^ p from by rw [Nat.shiftLeft_eq, one_mul], Nat.testBit_two_pow]

theorem testBit_EXCLZONE (i : Nat) :
    Nat.testBit EXCLZONE i = (decide (i < 54) || (decide (58 ≤ i) && decide (i - 58 < 6))) := by
  unfold EXCLZONE
  rw [Nat.testBit_lor, Nat.testBit_shiftLeft,
    show ((1 : Nat) <<< 54) - 1 = 2 ^ 54 - 1 from by rw [Nat.shiftLeft_eq, one_mul],
    Nat.testBit_two_pow_sub_one,
    show (0b111111 : Nat) = 2 ^ 6 - 1 from by norm_num,
    Nat.testBit_two_pow_sub_one, Bool.or_comm]

theorem share_result_low (s z : Nat) (i : Nat) (hi : i < 54) :
    Nat.testBit ((s &&& EXCLZONE) ||| (z <<< 54)) i = Nat.testBit s i := by
  rw [Nat.testBit_lor, Nat.testBit_land, Nat.testBit_shiftLeft, testBit_EXCLZONE]
  have h1 : decide (i < 54) = true := by simp [hi]
  have h2 : decide (54 ≤ i) = false := by simp only [decide_eq_false_iff_not]; omega
  rw [h1, h2]
  simp

theorem share_result_keep (s z i : Nat) (hz : z ≤ 9) (hi : i < 64)
    (hnot : ¬(54 ≤ i ∧ i < 58)) :
    Nat.testBit ((s &&& EXCLZONE) ||| (z <<< 54)) i = Nat.testBit s i := by
  by_cases hlo : i < 54
  · exact share_result_low s z i hlo
  · rw [Nat.testBit_lor, Nat.testBit_land, Nat.testBit_shiftLeft, testBit_EXCLZONE]
    have hzb : Nat.testBit z (i - 54) = false := by
      apply Nat.testBit_eq_false_of_lt
      calc z ≤ 9 := hz
        _ < 2 ^ 4 := by norm_num
        _ ≤ 2 ^ (i - 54) := Nat.pow_le_pow_right (by norm_num) (by omega)
    have h1 : decide (i < 54) = false := by simp only [decide_eq_false_iff_not]; omega
    have h2 : decide (58 ≤ i) = true := by simp only [decide_eq_true_eq]; omega
    have h3 : decide (i - 58 < 6) = true := by simp only [decide_eq_true_eq]; omega
    have h4 : decide (54 ≤ i) = true := by simp only [decide_eq_true_eq]; omega
    rw [h1, h2, h3, h4, hzb]
    simp

theorem share_result_zone (s z : Nat) (hz : z ≤ 9) :
    (((s &&& EXCLZONE) ||| (z <<< 54)) >>> 54) &&& 0b1111 = z := by
  apply Nat.eq_of_testBit_eq
  intro j
  rw [Nat.testBit_land, Nat.testBit_shiftRight, Nat.testBit_lor, Nat.testBit_land,
    Nat.testBit_shiftLeft, testBit_EXCLZONE,
    show (0b1111 : Nat) = 2 ^ 4 - 1 from by norm_num, Nat.testBit_two_pow_sub_one]
  by_cases hj : j < 4
  · have e1 : decide (54 + j < 54) = false := by simp only [decide_eq_false_iff_not]; omega
    have e2 : decide (58 ≤ 54 + j) = false := by simp only [decide_eq_false_iff_not]; omega
    have e3 : decide (54 ≤ 54 + j) = true := by simp only [decide_eq_true_eq]; omega
    have e4 : 54 + j - 54 = j := by omega
    have e5 : decide (j < 4) = true := by simp [hj]
    rw [e1, e2, e3, e4, e5]
    simp
  · have hzb : Nat.testBit z j = false := by
      apply Nat.testBit_eq_false_of_lt
      calc z ≤ 9 := hz
        _ < 2 ^ 4 := by norm_num
        _ ≤ 2 ^ j := Nat.pow_le_pow_right (by norm_num) (by omega)
    have e5 : decide (j < 4) = false := by simp only [decide_eq_false_iff_not]; omega
    rw [e5, hzb]
    simp

theorem decided_bit_iff (s z c : Nat) (hz : z ≤ 9) (hc : c < 9) :
    ((((s &&& EXCLZONE) ||| (z <<< 54)) >>> (36 + c)) &&& 1 = 1 ∨
      (((s &&& EXCLZONE) ||| (z <<< 54)) >>> (45 + c)) &&& 1 = 1) ↔
    ((s ||| (s >>> 9)) >>> (36 + c)) &&& 1 = 1 := by
  rw [extract_one, extract_one, extract_one,
    share_result_low s z (36 + c) (by omega), share_result_low s z (45 + c) (by omega),
    Nat.testBit_lor, Nat.testBit_shiftRight,
    show 9 + (36 + c) = 45 + c from by omega]
  simp

theorem chunk_low_eq (s z k : Nat) (hk : k + 9 ≤ 36) :
    (((((s &&& EXCLZONE) ||| (z <<< 54)) >>> 18) ||| ((s &&& EXCLZONE) ||| (z <<< 54))) >>> k)
        &&& CHUNK
      = ((s ||| (s >>> 18)) >>> k) &&& CHUNK := by
  apply Nat.eq_of_testBit_eq
  intro j
  by_cases hj : j < 9
  · simp only [Nat.testBit_land, Nat.testBit_shiftRight, Nat.testBit_lor]
    have h1 : EXCLZONE.testBit (18 + (k + j)) = true := by
      rw [testBit_EXCLZONE]; simp [show 18 + (k + j) < 54 from by omega]
    have h2 : EXCLZONE.testBit (k + j) = true := by
      rw [testBit_EXCLZONE]; simp [show k + j < 54 from by omega]
    have h3 : (z <<< 54).testBit (18 + (k + j)) = false := by
      rw [Nat.testBit_shiftLeft]; simp [show ¬(54 ≤ 18 + (k + j)) from by omega]
    have h4 : (z <<< 54).testBit (k + j) = false := by
      rw [Nat.testBit_shiftLeft]; simp [show ¬(54 ≤ k + j) from by omega]
    rw [h1, h2, h3, h4]
    simp [Bool.or_comm]
  · rw [Nat.testBit_land, Nat.testBit_land]
    have hC : Nat.testBit CHUNK j = false := by
      rw [show CHUNK = 2 ^ 9 - 1 from by norm_num [CHUNK], Nat.testBit_two_pow_sub_one]
      simp only [decide_eq_false_iff_not]; omega
    rw [hC]
    simp

/-- The zone logic of `playMove`: the next-zone field of the result is
either ANY or the sent-to zone `m % 9`, and it is ANY exactly when that
zone is decided or full in the resulting position. -/
theorem playMove_zone_spec (b : Board) (m : Nat) (side : Bool) :
    (nextZoneField (playMove b m side) = ZONE_ANY ∨
      nextZoneField (playMove b m side) = m % 9) ∧
    (nextZoneField (playMove b m side) = ZONE_ANY ↔
      (zoneDecided (playMove b m side) (m % 9) ∨ zoneFull (playMove b m side) (m % 9))) := by
  have hc9 : m % 9 < 9 := Nat.mod_lt _ (by norm_num)
  set step := playMoveCell b m side with hstep
  set share1 := (if step.2 then step.1.share ||| (1 <<< (36 + cond side 0 9 + m / 9))
    else step.1.share) with hshare1
  set nextChunk := (if m % 9 > 6 then
      ((share1 ||| (share1 >>> 18)) >>> (9 * (m % 9 - 7))) &&& CHUNK
    else ((step.1.us ||| step.1.them) >>> (9 * (m % 9))) &&& CHUNK) with hchunk
  set zoneVal := (if nextChunk = CHUNK ∨
      ((share1 ||| (share1 >>> 9)) >>> (36 + m % 9)) &&& 1 = 1 then ZONE_ANY else m % 9)
    with hzone
  have hR : playMove b m side =
      ⟨step.1.us, step.1.them, (share1 &&& EXCLZONE) ||| (zoneVal <<< 54)⟩ := rfl
  have hz9 : zoneVal ≤ 9 := by
    rw [hzone]; split
    · exact le_refl 9
    · omega
  have hNZ : nextZoneField (playMove b m side) = zoneVal := by
    rw [hR]
    exact share_result_zone share1 zoneVal hz9
  have hDec : zoneDecided (playMove b m side) (m % 9) ↔
      ((share1 ||| (share1 >>> 9)) >>> (36 + m % 9)) &&& 1 = 1 := by
    rw [hR]
    exact decided_bit_iff share1 zoneVal (m % 9) hz9 hc9
  have hFull : zoneFull (playMove b m side) (m % 9) ↔ nextChunk = CHUNK := by
    rw [hR]
    unfold zoneFull zoneCells
    by_cases h7 : 7 ≤ m % 9
    · rw [if_pos h7, hchunk, if_pos (by omega : m % 9 > 6)]
      rw [chunk_low_eq share1 zoneVal (9 * (m % 9 - 7)) (by omega)]
    · rw [if_neg h7, hchunk, if_neg (by omega : ¬(m % 9 > 6))]
  constructor
  · rw [hNZ, hzone]
    split
    · exact Or.inl rfl
    · exact Or.inr rfl
  · rw [hNZ, hzone]
    split
    · next hcond =>
        constructor
        · intro _
          rcases hcond with hfull | hdec
          · exact Or.inr (hFull.mpr hfull)
          · exact Or.inl (hDec.mpr hdec)
        · intro _; rfl
    · next hcond =>
        constructor
        · intro habs
          rw [show ZONE_ANY = 9 from rfl] at habs
          omega
        · intro hor
          rcases hor with hdec | hfull
          · exact absurd (Or.inr (hDec.mp hdec)) hcond
          · exact absurd (Or.inl (hFull.mp hfull)) hcond

/-! ### Claim C1 -/

/-- C1 (counterexample): it is not the case that, for some fixed assignment
`σ` of lines to the eight 3-bit slots, each slot of `lines g` stores the
population count of `g`'s marks on its line. At `g = 511` slot 0 holds `7`,
while every line's mark count is `3`: the slots hold 3-bit occupancy masks,
not binary counts. -/
theorem c1_counterexample :
    ¬ ∃ σ : Fin 8 → Fin 8, ∀ g : Nat, g < 512 → ∀ k : Fin 8,
      (lines g >>> (3 * k.val)) &&& 7 = popCount (g &&& lineMask (σ k)) ∧
      (((lines g >>> (3 * k.val)) &&& 7 = 3) ↔ g &&& lineMask (σ k) = lineMask (σ k)) := by
  rintro ⟨σ, h⟩
  obtain ⟨h1, -⟩ := h 511 (by norm_num) 0
  have e7 : (lines 511 >>> (3 * (0 : Fin 8).val)) &&& 7 = 7 := by decide
  have e3 : ∀ l : Fin 8, popCount (511 &&& lineMask l) = 3 := by decide
  rw [e7, e3 (σ 0)] at h1
  exact absurd h1 (by norm_num)

/-- C1 (amended): for every 9-bit grid `g`, each 3-bit slot of `lines g`
holds the occupancy mask of the corresponding line's cells in `g` — its
population count equals the number of `g`'s marks on that line, and the
slot equals 7 (all three bits) exactly when that line is completed —
under the fixed slot order of `lineMask`, independent of `g`. -/
theorem c1_theorem : ∀ g : Nat, g < 512 → ∀ k : Fin 8,
    popCount ((lines g >>> (3 * k.val)) &&& 7) = popCount (g &&& lineMask k) ∧
    (((lines g >>> (3 * k.val)) &&& 7 = 7) ↔ g &&& lineMask k = lineMask k) :=
  lines_slot_spec

/-- C1 witness: the amended claim instantiated at `g = 73` (column 0
completed) and slot 0. -/
theorem c1_witness :
    73 < 512 ∧
    (popCount ((lines 73 >>> (3 * (0 : Fin 8).val)) &&& 7) = popCount (73 &&& lineMask 0) ∧
      (((lines 73 >>> (3 * (0 : Fin 8).val)) &&& 7 = 7) ↔ 73 &&& lineMask 0 = lineMask 0)) :=
  ⟨by norm_num, c1_theorem 73 (by norm_num) 0⟩
/-! ### Claim C2 -/

/-- C2: for every 9-bit grid `g`, `linePresence g` is true exactly when
some row, column or diagonal of `g` has all three of its bits set. -/
theorem c2_theorem : ∀ g : Nat, g < 512 →
    (linePresence g = true ↔ ∃ k : Fin 8, g &&& lineMask k = lineMask k) := by
  set_option maxRecDepth 4096 in decide

/-- C2 witness: instantiated at `g = 7` (row 0 completed). -/
theorem c2_witness :
    7 < 512 ∧ (linePresence 7 = true ↔ ∃ k : Fin 8, 7 &&& lineMask k = lineMask k) :=
  ⟨by norm_num, c2_theorem 7 (by norm_num)⟩
/-! ### Claim C3 -/

/-- C3: playing move 40 (centre cell of the centre zone) by side `true`
from the initial board sets exactly bit 40 of `us`, leaves `them` and the
meta bits (bits 36–53 of `share`) zero, sets the next-zone field to 4, and
the move list of the resulting board is 36..44 without 40. -/
theorem c3_theorem :
    (playMove newBoard 40 true).us = 1 <<< 40 ∧
    (playMove newBoard 40 true).them = 0 ∧
    ((playMove newBoard 40 true).share >>> 36) &&& DBLCHUNK = 0 ∧
    ((playMove newBoard 40 true).share >>> 54) &&& 0b1111 = 4 ∧
    generateMoves (playMove newBoard 40 true) = [36, 37, 38, 39, 41, 42, 43, 44] := by
  decide
/-! ### Claim C8 -/

/-- C8: `evaluate` is antisymmetric in the side flag: on any board the two
calls return scores of equal magnitude and opposite sign. -/
theorem c8_theorem (b : Board) : evaluate b true = -evaluate b false := by
  simp only [evaluate, cond_true, cond_false, OUTCOME_DRAW]
  split_ifs <;> ring
/-! ### Claim C4 -/

/-- C4: whenever the move list is empty and the side-signed meta-table
value is not a mate score, `alphaBeta` returns a draw score of 0 with a PV
of `maxDepth` null moves, whatever heuristic value the table holds. -/
theorem c4_theorem (b : Board) (side : Bool) (depth : Nat) (alpha beta : Int)
    (maxDepth : Nat) (hdepth : 1 ≤ depth) (hmax : depth ≤ maxDepth)
    (hmoves : generateMoves b = [])
    (hW : EVAL_TABLE_LARGE ((b.share >>> 36) &&& DBLCHUNK) * (cond side 1 (-1)) ≠ OUTCOME_WIN)
    (hL : EVAL_TABLE_LARGE ((b.share >>> 36) &&& DBLCHUNK) * (cond side 1 (-1)) ≠ OUTCOME_LOSS) :
    alphaBeta b side depth alpha beta maxDepth =
      ⟨OUTCOME_DRAW, List.replicate maxDepth NULL_MOVE⟩ := by
  obtain ⟨d, rfl⟩ : ∃ d, depth = d + 1 := ⟨depth - 1, by omega⟩
  simp only [alphaBeta, hmoves, List.isEmpty_nil, if_true]
  rw [if_neg hW, if_neg hL]

/-- C4 witness: the board with zone 0 full of `us` marks, all meta bits
clear and next-zone 0 has no moves and meta-table value 0; the search
reports a draw. -/
theorem c4_witness :
    1 ≤ 1 ∧ (1 : Nat) ≤ 1 ∧
    generateMoves ⟨511, 0, 0⟩ = [] ∧
    EVAL_TABLE_LARGE (((⟨511, 0, 0⟩ : Board).share >>> 36) &&& DBLCHUNK) *
      (cond true 1 (-1)) ≠ OUTCOME_WIN ∧
    alphaBeta ⟨511, 0, 0⟩ true 1 OUTCOME_LOSS OUTCOME_WIN 1 =
      ⟨OUTCOME_DRAW, List.replicate 1 NULL_MOVE⟩ :=
  ⟨le_refl 1, le_refl 1, by decide, by decide,
    c4_theorem ⟨511, 0, 0⟩ true 1 OUTCOME_LOSS OUTCOME_WIN 1 (le_refl 1) (le_refl 1)
      (by decide) (by decide) (by decide)⟩
/-! ### Claim C6 -/

/-- C6: for disjoint 9-bit patterns, the tables built by `init` hold
`(+1000000, 0)` when only `us` has a completed line, `(-1000000, 0)` when
only `them` has one, and `(0, 0)` on a full drawn grid. -/
theorem c6_theorem (us them : Nat) (hus : us < 512) (hthem : them < 512)
    (hdisj : us &&& them = 0) :
    (hasLine us = true ∧ hasLine them = false →
      EVAL_TABLE_LARGE ((them <<< 9) ||| us) = OUTCOME_WIN ∧
      EVAL_TABLE_SMALL ((them <<< 9) ||| us) = 0) ∧
    (hasLine them = true ∧ hasLine us = false →
      EVAL_TABLE_LARGE ((them <<< 9) ||| us) = OUTCOME_LOSS ∧
      EVAL_TABLE_SMALL ((them <<< 9) ||| us) = 0) ∧
    (hasLine us = false ∧ hasLine them = false ∧ us ||| them = 511 →
      EVAL_TABLE_LARGE ((them <<< 9) ||| us) = OUTCOME_DRAW ∧
      EVAL_TABLE_SMALL ((them <<< 9) ||| us) = 0) := by
  have hTL : EVAL_TABLE_LARGE ((them <<< 9) ||| us) = (evalPair us them).1 := by
    rw [EVAL_TABLE_LARGE, idx_and_511 them us hus, idx_shr_9 them us hus]
  have hTS : EVAL_TABLE_SMALL ((them <<< 9) ||| us) = (evalPair us them).2 := by
    rw [EVAL_TABLE_SMALL, idx_and_511 them us hus, idx_shr_9 them us hus]
  have noline : ∀ g : Nat, hasLine g = false →
      ∀ k : Fin 8, ¬(g &&& lineMask k = lineMask k) := by
    intro g hg k hk
    have := (hasLine_iff g).mpr ⟨k, hk⟩
    rw [hg] at this
    exact Bool.false_ne_true this
  have disjzero : ∀ k0 : Fin 8, us &&& lineMask k0 = lineMask k0 →
      them &&& lineMask k0 = 0 := by
    intro k0 hk0
    calc them &&& lineMask k0 = them &&& (us &&& lineMask k0) := by rw [hk0]
      _ = them &&& us &&& lineMask k0 := by rw [Nat.land_assoc]
      _ = us &&& them &&& lineMask k0 := by rw [Nat.land_comm them us]
      _ = 0 &&& lineMask k0 := by rw [hdisj]
      _ = 0 := Nat.zero_and _
  have disjzero' : ∀ k0 : Fin 8, them &&& lineMask k0 = lineMask k0 →
      us &&& lineMask k0 = 0 := by
    intro k0 hk0
    calc us &&& lineMask k0 = us &&& (them &&& lineMask k0) := by rw [hk0]
      _ = us &&& them &&& lineMask k0 := by rw [Nat.land_assoc]
      _ = 0 &&& lineMask k0 := by rw [hdisj]
      _ = 0 := Nat.zero_and _
  refine ⟨fun ⟨ha, hb⟩ => ?_, fun ⟨ha, hb⟩ => ?_, fun ⟨ha, hb, hc⟩ => ?_⟩
  · obtain ⟨k0, hk0⟩ := (hasLine_iff us).mp ha
    have hM : ∀ i ∈ [0, 3, 6, 9, 12, 15, 18, 21],
        popCount ((lines them >>> i) &&& LINE) ≠ 3 := by
      intro i hi hcon
      obtain ⟨k, rfl⟩ := slots_mem i hi
      exact noline them hb k ((slot_count_three them hthem k).mp hcon)
    have hex : ∃ i ∈ [0, 3, 6, 9, 12, 15, 18, 21],
        popCount ((lines us >>> i) &&& LINE) = 3 ∧
        popCount ((lines them >>> i) &&& LINE) = 0 := by
      refine ⟨3 * k0.val, ?_, (slot_count_three us hus k0).mpr hk0,
        slot_count_zero them hthem k0 (disjzero k0 hk0)⟩
      fin_cases k0 <;> decide
    obtain ⟨h1, h2⟩ := initLineScan_usWon (lines us) (lines them) _ 0 0 hM hex
    rw [hTL, hTS, show evalPair us them = (OUTCOME_WIN, 0) from by simp [evalPair, h1]]
    exact ⟨rfl, rfl⟩
  · obtain ⟨k0, hk0⟩ := (hasLine_iff them).mp ha
    have hM : ∀ i ∈ [0, 3, 6, 9, 12, 15, 18, 21],
        popCount ((lines us >>> i) &&& LINE) ≠ 3 := by
      intro i hi hcon
      obtain ⟨k, rfl⟩ := slots_mem i hi
      exact noline us hb k ((slot_count_three us hus k).mp hcon)
    have hex : ∃ i ∈ [0, 3, 6, 9, 12, 15, 18, 21],
        popCount ((lines them >>> i) &&& LINE) = 3 ∧
        popCount ((lines us >>> i) &&& LINE) = 0 := by
      refine ⟨3 * k0.val, ?_, (slot_count_three them hthem k0).mpr hk0,
        slot_count_zero us hus k0 (disjzero' k0 hk0)⟩
      fin_cases k0 <;> decide
    obtain ⟨h1, h2⟩ := initLineScan_themWon (lines us) (lines them) _ 0 0 hM hex
    rw [hTL, hTS, show evalPair us them = (OUTCOME_LOSS, 0) from by simp [evalPair, h1, h2]]
    exact ⟨rfl, rfl⟩
  · have hB : ∀ i ∈ [0, 3, 6, 9, 12, 15, 18, 21],
        popCount ((lines us >>> i) &&& LINE) ≠ 3 ∧
        popCount ((lines them >>> i) &&& LINE) ≠ 3 := by
      intro i hi
      obtain ⟨k, rfl⟩ := slots_mem i hi
      exact ⟨fun hcon => noline us ha k ((slot_count_three us hus k).mp hcon),
        fun hcon => noline them hb k ((slot_count_three them hthem k).mp hcon)⟩
    obtain ⟨h1, h2⟩ := initLineScan_noWin (lines us) (lines them) _ 0 0 hB
    rw [hTL, hTS, show evalPair us them = (OUTCOME_DRAW, 0) from by
      simp [evalPair, h1, h2, hc, show popCount 511 = 9 from by decide]]
    exact ⟨rfl, rfl⟩

/-- C6 witness: `us = 7` (row 0 completed), `them = 192` (two cells of
row 2), a disjoint pair in which only `us` has a line. -/
theorem c6_witness :
    7 < 512 ∧ 192 < 512 ∧ 7 &&& 192 = 0 ∧
    (EVAL_TABLE_LARGE ((192 <<< 9) ||| 7) = OUTCOME_WIN ∧
      EVAL_TABLE_SMALL ((192 <<< 9) ||| 7) = 0) :=
  ⟨by norm_num, by norm_num, by decide,
    (c6_theorem 7 192 (by norm_num) (by norm_num) (by decide)).1 ⟨by decide, by decide⟩⟩

/-! ### Claim C5 -/

/-- C5: the next-zone field of `playMove P m side` is either 9 or `m % 9`,
and it is 9 exactly when zone `m % 9` is decided or full in the resulting
board. -/
theorem c5_theorem (b : Board) (m : Nat) (hm : m < 81) (side : Bool) :
    (nextZoneField (playMove b m side) = 9 ∨ nextZoneField (playMove b m side) = m % 9) ∧
    (nextZoneField (playMove b m side) = 9 ↔
      (zoneDecided (playMove b m side) (m % 9) ∨ zoneFull (playMove b m side) (m % 9))) :=
  playMove_zone_spec b m side

/-- C5 witness: move 40 by `true` from the initial board. -/
theorem c5_witness :
    40 < 81 ∧
    ((nextZoneField (playMove newBoard 40 true) = 9 ∨
      nextZoneField (playMove newBoard 40 true) = 40 % 9) ∧
     (nextZoneField (playMove newBoard 40 true) = 9 ↔
      (zoneDecided (playMove newBoard 40 true) (40 % 9) ∨
       zoneFull (playMove newBoard 40 true) (40 % 9)))) :=
  ⟨by norm_num, c5_theorem newBoard 40 (by norm_num) true⟩

/-! ### Claim C7 -/

/-- Reachability invariant: the next-zone field is at most 9, and when it
forces a zone that zone is not decided. -/
theorem reachable_inv (b : Board) (s : Bool) (h : Reachable b s) :
    nextZoneField b ≤ 9 ∧ (∀ z, z < 9 → nextZoneField b = z → ¬ zoneDecided b z) := by
  induction h with
  | base =>
    have h9 : nextZoneField newBoard = 9 := by decide
    refine ⟨le_of_eq h9, fun z hz heq hdec => ?_⟩
    rw [h9] at heq
    omega
  | step hre hmem ih =>
    next b s m =>
      obtain ⟨hor, hiff⟩ := playMove_zone_spec b m s
      constructor
      · rcases hor with h | h
        · rw [h]; decide
        · rw [h]
          exact Nat.le_of_lt (Nat.mod_lt _ (by norm_num))
      · intro z hz heq hdec
        rcases hor with h | h
        · rw [heq, show ZONE_ANY = 9 from rfl] at h
          omega
        · have hzm : z = m % 9 := by rw [heq] at h; exact h
          have hany : nextZoneField (playMove b m s) = ZONE_ANY :=
            hiff.mpr (Or.inl (hzm ▸ hdec))
          rw [heq, show ZONE_ANY = 9 from rfl] at hany
          omega

theorem zoneDecided_iff_largeBit (b : Board) (z : Nat) :
    zoneDecided b z ↔ ((((b.share >>> 36) ||| (b.share >>> 45)) >>> z) &&& 1 = 1) := by
  unfold zoneDecided
  rw [extract_one, extract_one, extract_one, Nat.testBit_lor, Nat.testBit_shiftRight,
    Nat.testBit_shiftRight]
  simp

/-- C7: in any reachable position, every generated move addresses an empty
cell in a zone that is not decided. -/
theorem c7_theorem (b : Board) (s : Bool) (hreach : Reachable b s) (m : Nat)
    (hm : m ∈ generateMoves b) :
    cellEmpty b m ∧ ¬ zoneDecided b (m / 9) := by
  obtain ⟨hle, hinv⟩ := reachable_inv b s hreach
  have hZ : nextZoneField b = (b.share >>> 54) &&& 0b1111 := rfl
  simp only [generateMoves] at hm
  split at hm
  · exact absurd hm (List.not_mem_nil m)
  · split at hm
    · -- zone = ANY
      rcases List.mem_append.mp hm with hm' | hm'
      · obtain ⟨hmem, hcond⟩ := List.mem_filter.mp hm'
        have hm63 : m < 63 := List.mem_range.mp hmem
        rw [Bool.and_eq_true, beq_iff_eq, beq_iff_eq] at hcond
        constructor
        · unfold cellEmpty
          rw [if_neg (by omega : ¬ 63 ≤ m)]
          exact hcond.1
        · intro hdec
          have h1 := (zoneDecided_iff_largeBit b (m / 9)).mp hdec
          omega
      · obtain ⟨hmem, hcond⟩ := List.mem_filter.mp hm'
        obtain ⟨i, hi, rfl⟩ := List.mem_map.mp hmem
        have hi18 : i < 18 := List.mem_range.mp hi
        rw [Bool.and_eq_true, beq_iff_eq, beq_iff_eq] at hcond
        constructor
        · unfold cellEmpty
          rw [if_pos (by omega : 63 ≤ i + 63)]
          exact hcond.1
        · intro hdec
          have h1 := (zoneDecided_iff_largeBit b ((i + 63) / 9)).mp hdec
          omega
    · split at hm
      · -- zone = 7 or 8
        next hz78 =>
          obtain ⟨hmem, hcond⟩ := List.mem_filter.mp hm
          obtain ⟨i, hi, rfl⟩ := List.mem_map.mp hmem
          have hi9 : i < 9 := List.mem_range.mp hi
          have hz7 : 7 ≤ (b.share >>> 54) &&& 0b1111 := by rcases hz78 with h | h <;> omega
          have hz9 : (b.share >>> 54) &&& 0b1111 < 9 := by rcases hz78 with h | h <;> omega
          have hdiv : (i + 9 * ((b.share >>> 54) &&& 0b1111)) / 9
              = (b.share >>> 54) &&& 0b1111 := by
            rw [Nat.add_mul_div_left _ _ (by norm_num : 0 < 9), Nat.div_eq_of_lt hi9,
              Nat.zero_add]
          rw [beq_iff_eq] at hcond
          constructor
          · unfold cellEmpty
            rw [if_pos (by omega : 63 ≤ i + 9 * ((b.share >>> 54) &&& 0b1111))]
            exact hcond
          · rw [hdiv]
            exact hinv _ hz9 hZ
      · -- forced zone 0..6
        next hz78 =>
          next hzAny =>
            obtain ⟨hmem, hcond⟩ := List.mem_filter.mp hm
            obtain ⟨i, hi, rfl⟩ := List.mem_map.mp hmem
            have hi9 : i < 9 := List.mem_range.mp hi
            have hle' : (b.share >>> 54) &&& 0b1111 ≤ 9 := hZ ▸ hle
            have hz9 : (b.share >>> 54) &&& 0b1111 < 9 := by
              rcases Nat.lt_or_ge ((b.share >>> 54) &&& 0b1111) 9 with h | h
              · exact h
              · exact absurd (by omega : (b.share >>> 54) &&& 0b1111 = 9) hzAny
            have hz6 : (b.share >>> 54) &&& 0b1111 ≤ 6 := by
              rcases Nat.lt_or_ge ((b.share >>> 54) &&& 0b1111) 7 with h | h
              · omega
              · exact absurd (by omega : (b.share >>> 54) &&& 0b1111 = 7 ∨
                  (b.share >>> 54) &&& 0b1111 = 8) hz78
            have hdiv : (i + 9 * ((b.share >>> 54) &&& 0b1111)) / 9
                = (b.share >>> 54) &&& 0b1111 := by
              rw [Nat.add_mul_div_left _ _ (by norm_num : 0 < 9), Nat.div_eq_of_lt hi9,
                Nat.zero_add]
            rw [beq_iff_eq] at hcond
            constructor
            · unfold cellEmpty
              rw [if_neg (by omega : ¬ 63 ≤ i + 9 * ((b.share >>> 54) &&& 0b1111))]
              exact hcond
            · rw [hdiv]
              exact hinv _ hz9 hZ

/-- C7 witness: move 0 from the (reachable) initial position. -/
theorem c7_witness : cellEmpty newBoard 0 ∧ ¬ zoneDecided newBoard (0 / 9) :=
  c7_theorem newBoard true Reachable.base 0 (by decide)

/-! ### Claim C9 -/

/-- The search loop is fail-hard: whatever the child evaluations are, the
returned score stays inside the window `[alpha, beta]`. -/
theorem abLoop_bound (rec : Board → Bool → Int → Int → EvalAndPV) (bd : Board) (s : Bool)
    (dep mD : Nat) (beta : Int) :
    ∀ (moves : List Nat) (alpha : Int) (pv : List Nat), alpha ≤ beta →
      alpha ≤ (abLoop rec bd s dep mD beta moves alpha pv).evaluation ∧
      (abLoop rec bd s dep mD beta moves alpha pv).evaluation ≤ beta := by
  intro moves
  induction moves with
  | nil => intro alpha pv hab; exact ⟨le_refl alpha, hab⟩
  | cons mv rest ih =>
    intro alpha pv hab
    simp only [abLoop]
    by_cases h1 : -(rec (playMove bd mv s) (!s) (-beta) (-alpha)).evaluation ≥ beta
    · rw [if_pos h1]; exact ⟨hab, le_refl beta⟩
    · rw [if_neg h1]
      by_cases h2 : -(rec (playMove bd mv s) (!s) (-beta) (-alpha)).evaluation > alpha
      · rw [if_pos h2]
        have h3 := ih (-(rec (playMove bd mv s) (!s) (-beta) (-alpha)).evaluation)
          ((rec (playMove bd mv s) (!s) (-beta) (-alpha)).pv.set (mD - dep) mv) (by omega)
        exact ⟨le_trans (le_of_lt h2) h3.1, h3.2⟩
      · rw [if_neg h2]; exact ih alpha pv hab

/-- C9: from any reachable position, at any positive depth, the root score
stays within the closed interval `[OUTCOME_LOSS, OUTCOME_WIN]`. -/
theorem c9_theorem (b : Board) (side : Bool) (depth : Nat)
    (hreach : ∃ s, Reachable b s) (hd : 1 ≤ depth) :
    OUTCOME_LOSS ≤ (alphaBetaRootCall b side depth).evaluation ∧
    (alphaBetaRootCall b side depth).evaluation ≤ OUTCOME_WIN := by
  obtain ⟨d, rfl⟩ : ∃ d, depth = d + 1 := ⟨depth - 1, by omega⟩
  rw [alphaBetaRootCall]
  simp only [alphaBeta]
  by_cases hmv : (generateMoves b).isEmpty
  · rw [if_pos hmv]
    by_cases h1 : EVAL_TABLE_LARGE ((b.share >>> 36) &&& DBLCHUNK) * (cond side 1 (-1))
        = OUTCOME_WIN
    · rw [if_pos h1]
      refine ⟨?_, ?_⟩ <;> simp [h1, OUTCOME_WIN, OUTCOME_LOSS] <;> omega
    · rw [if_neg h1]
      by_cases h2 : EVAL_TABLE_LARGE ((b.share >>> 36) &&& DBLCHUNK) * (cond side 1 (-1))
          = OUTCOME_LOSS
      · rw [if_pos h2]
        refine ⟨?_, ?_⟩ <;> simp [h2, OUTCOME_WIN, OUTCOME_LOSS] <;> omega
      · rw [if_neg h2]
        refine ⟨?_, ?_⟩ <;> simp [OUTCOME_DRAW, OUTCOME_WIN, OUTCOME_LOSS]
  · rw [if_neg hmv]
    exact abLoop_bound (fun b' s' a' b'' => alphaBeta b' s' d a' b'' (d + 1)) b side
      (d + 1) (d + 1) OUTCOME_WIN (generateMoves b) OUTCOME_LOSS
      (List.replicate (d + 1) NULL_MOVE) (by norm_num [OUTCOME_LOSS, OUTCOME_WIN])

/-- C9 witness: the initial position at depth 1. -/
theorem c9_witness :
    OUTCOME_LOSS ≤ (alphaBetaRootCall newBoard true 1).evaluation ∧
    (alphaBetaRootCall newBoard true 1).evaluation ≤ OUTCOME_WIN :=
  c9_theorem newBoard true 1 ⟨true, Reachable.base⟩ (le_refl 1)

/-! ### Claim C10 -/

theorem playMoveCell_us (b : Board) (m : Nat) (side : Bool) :
    (playMoveCell b m side).1.us =
      if m ≤ 62 ∧ side = true then b.us ||| (1 <<< m) else b.us := by
  unfold playMoveCell
  by_cases h62 : m > 62
  · rw [if_pos h62, if_neg (by omega : ¬(m ≤ 62 ∧ side = true))]
  · rw [if_neg h62]
    cases side
    · rw [if_neg Bool.false_ne_true, if_neg (by simp : ¬(m ≤ 62 ∧ false = true))]
    · rw [if_pos rfl, if_pos ⟨by omega, rfl⟩]

theorem playMoveCell_them (b : Board) (m : Nat) (side : Bool) :
    (playMoveCell b m side).1.them =
      if m ≤ 62 ∧ side = false then b.them ||| (1 <<< m) else b.them := by
  unfold playMoveCell
  by_cases h62 : m > 62
  · rw [if_pos h62, if_neg (by omega : ¬(m ≤ 62 ∧ side = false))]
  · rw [if_neg h62]
    cases side
    · rw [if_neg Bool.false_ne_true, if_pos ⟨by omega, rfl⟩]
    · rw [if_pos rfl, if_neg (by simp : ¬(m ≤ 62 ∧ true = false))]

theorem playMoveCell_share (b : Board) (m : Nat) (side : Bool) :
    (playMoveCell b m side).1.share =
      if 62 < m then b.share ||| (1 <<< (m - 63 + cond side 0 18)) else b.share := by
  unfold playMoveCell
  by_cases h62 : m > 62
  · rw [if_pos h62, if_pos h62]
  · rw [if_neg h62, if_neg h62]
    cases side
    · rw [if_neg Bool.false_ne_true]
    · rw [if_pos rfl]

/-- C10: `playMove` never clears a mark and touches nothing outside the
move's footprint: set bits of `us`, `them`, and of bits 0–53 and 58–63 of
`share` are preserved; `us`/`them` change in at most bit `m`, and only
when `m ≤ 62` and the respective side was selected; and within the 64-bit
`share` word only the played cell bit (for `m ≥ 63`), the meta-won bit,
and the next-zone field 54–57 can change. -/
theorem c10_theorem (b : Board) (m : Nat) (hm : m < 81) (side : Bool) :
    (∀ i, b.us.testBit i = true → (playMove b m side).us.testBit i = true) ∧
    (∀ i, b.them.testBit i = true → (playMove b m side).them.testBit i = true) ∧
    (∀ i, i < 64 → ¬(54 ≤ i ∧ i < 58) → b.share.testBit i = true →
      (playMove b m side).share.testBit i = true) ∧
    (∀ i, i ≠ m → (playMove b m side).us.testBit i = b.us.testBit i) ∧
    (side = false ∨ 62 < m → (playMove b m side).us = b.us) ∧
    (∀ i, i ≠ m → (playMove b m side).them.testBit i = b.them.testBit i) ∧
    (side = true ∨ 62 < m → (playMove b m side).them = b.them) ∧
    (∀ i, i < 64 → (playMove b m side).share.testBit i ≠ b.share.testBit i →
      (54 ≤ i ∧ i < 58) ∨ (62 < m ∧ i = m - 63 + cond side 0 18) ∨
      i = 36 + cond side 0 9 + m / 9) := by
  set step := playMoveCell b m side with hstep
  set share1 := (if step.2 then step.1.share ||| (1 <<< (36 + cond side 0 9 + m / 9))
    else step.1.share) with hshare1
  set nextChunk := (if m % 9 > 6 then
      ((share1 ||| (share1 >>> 18)) >>> (9 * (m % 9 - 7))) &&& CHUNK
    else ((step.1.us ||| step.1.them) >>> (9 * (m % 9))) &&& CHUNK) with hchunk
  set zoneVal := (if nextChunk = CHUNK ∨
      ((share1 ||| (share1 >>> 9)) >>> (36 + m % 9)) &&& 1 = 1 then ZONE_ANY else m % 9)
    with hzone
  have hR : playMove b m side =
      ⟨step.1.us, step.1.them, (share1 &&& EXCLZONE) ||| (zoneVal <<< 54)⟩ := rfl
  have hz9 : zoneVal ≤ 9 := by
    rw [hzone]; split
    · decide
    · omega
  have hus : (playMove b m side).us =
      if m ≤ 62 ∧ side = true then b.us ||| (1 <<< m) else b.us := by
    rw [hR]
    show step.1.us = _
    rw [hstep]
    exact playMoveCell_us b m side
  have hthem : (playMove b m side).them =
      if m ≤ 62 ∧ side = false then b.them ||| (1 <<< m) else b.them := by
    rw [hR]
    show step.1.them = _
    rw [hstep]
    exact playMoveCell_them b m side
  have hmono : ∀ i, b.share.testBit i = true → share1.testBit i = true := by
    intro i hbit
    rw [hshare1, hstep, playMoveCell_share b m side]
    by_cases hocc : (playMoveCell b m side).2
    · rw [if_pos hocc]
      by_cases h62 : 62 < m
      · rw [if_pos h62]
        simp [Nat.testBit_lor, hbit]
      · rw [if_neg h62]
        simp [Nat.testBit_lor, hbit]
    · rw [if_neg hocc]
      by_cases h62 : 62 < m
      · rw [if_pos h62]
        simp [Nat.testBit_lor, hbit]
      · rw [if_neg h62]
        exact hbit
  have hpow : ∀ (x p i : Nat), p ≠ i → (x ||| 1 <<< p).testBit i = x.testBit i := by
    intro x p i hp
    rw [Nat.testBit_lor, testBit_one_shiftLeft]
    simp [show decide (p = i) = false from by
      simp only [decide_eq_false_iff_not]; exact hp]
  have hframe : ∀ i, ¬(62 < m ∧ i = m - 63 + cond side 0 18) →
      i ≠ 36 + cond side 0 9 + m / 9 → share1.testBit i = b.share.testBit i := by
    intro i hcell hmeta
    have hmeta' : 36 + cond side 0 9 + m / 9 ≠ i := fun h => hmeta h.symm
    rw [hshare1, hstep, playMoveCell_share b m side]
    by_cases hocc : (playMoveCell b m side).2
    · rw [if_pos hocc]
      by_cases h62 : 62 < m
      · have hcell' : m - 63 + cond side 0 18 ≠ i := fun h => hcell ⟨h62, h.symm⟩
        rw [if_pos h62, hpow _ _ _ hmeta', hpow _ _ _ hcell']
      · rw [if_neg h62, hpow _ _ _ hmeta']
    · rw [if_neg hocc]
      by_cases h62 : 62 < m
      · have hcell' : m - 63 + cond side 0 18 ≠ i := fun h => hcell ⟨h62, h.symm⟩
        rw [if_pos h62, hpow _ _ _ hcell']
      · rw [if_neg h62]
  refine ⟨?_, ?_, ?_, ?_, ?_, ?_, ?_, ?_⟩
  · intro i hbit
    rw [hus]
    split
    · simp [Nat.testBit_lor, hbit]
    · exact hbit
  · intro i hbit
    rw [hthem]
    split
    · simp [Nat.testBit_lor, hbit]
    · exact hbit
  · intro i hi hnot hbit
    have e1 : (playMove b m side).share.testBit i = share1.testBit i := by
      rw [hR]
      exact share_result_keep share1 zoneVal i hz9 hi hnot
    rw [e1]
    exact hmono i hbit
  · intro i hne
    rw [hus]
    split
    · rw [Nat.testBit_lor, testBit_one_shiftLeft]
      simp [show decide (m = i) = false from by
        simp only [decide_eq_false_iff_not]; exact fun h => hne h.symm]
    · rfl
  · intro h
    rw [hus, if_neg ?_]
    rintro ⟨h1, h2⟩
    rcases h with h3 | h3
    · rw [h3] at h2
      exact Bool.false_ne_true h2
    · omega
  · intro i hne
    rw [hthem]
    split
    · rw [Nat.testBit_lor, testBit_one_shiftLeft]
      simp [show decide (m = i) = false from by
        simp only [decide_eq_false_iff_not]; exact fun h => hne h.symm]
    · rfl
  · intro h
    rw [hthem, if_neg ?_]
    rintro ⟨h1, h2⟩
    rcases h with h3 | h3
    · rw [h3] at h2
      exact Bool.noConfusion h2
    · omega
  · intro i hi hdiff
    by_cases hmid : 54 ≤ i ∧ i < 58
    · exact Or.inl hmid
    by_cases hcell : 62 < m ∧ i = m - 63 + cond side 0 18
    · exact Or.inr (Or.inl hcell)
    by_cases hmeta : i = 36 + cond side 0 9 + m / 9
    · exact Or.inr (Or.inr hmeta)
    exfalso
    apply hdiff
    have e1 : (playMove b m side).share.testBit i = share1.testBit i := by
      rw [hR]
      exact share_result_keep share1 zoneVal i hz9 hi hmid
    rw [e1]
    exact hframe i hcell hmeta

/-- C10 witness: move 40 by `true` from the initial board leaves `them`
untouched. -/
theorem c10_witness :
    40 < 81 ∧ (playMove newBoard 40 true).them = newBoard.them :=
  ⟨by norm_num, (c10_theorem newBoard 40 (by norm_num) true).2.2.2.2.2.2.1 (Or.inl rfl)⟩

end UTTT
